import Mathlib

/-!
A shallow embedding of the bloomdb bulk-upsert pipeline (upsert.go).

The embedding covers: the template helper functions of the package-level
function map, the staging-table name derivation, the NULL translation
applied to each row field as it is appended to the bulk-copy operation,
the query construction of buildQuery, and the full control flow of the
Upsert pipeline (staging load, uniqueness-index creation, statistics
refresh, revision execution, merge execution, and the two commits).

Calls into the database driver and the template engine are external
collaborators.  They are represented by an oracle that fixes, for each
call site, whether the call fails and with which error value, while the
embedding reproduces the source's control flow, its logging output and
its state transitions exactly.  The one database behaviour modelled
semantically rather than through the oracle is the uniqueness index:
per the documented contract, creating a unique index on the staging
table's identifier column fails exactly when the staged identifier
values contain a duplicate (and may otherwise fail for oracle-chosen
reasons).  The durable database state carries the target table as an
abstract value that is only changed by committing the merge
transaction, so that rollback and atomicity facts are expressible.
-/

namespace Bloomdb

/-- Field translation performed by Upsert as each raw row is converted
before being appended to the copy operation: the empty string becomes
SQL NULL (here: none); every other string is passed through unchanged. -/
def translateField (s : String) : Option String :=
  if s = "" then none else some s

/-- Row translation: translateField applied at every position of the
raw row, exactly as the inner loop of Upsert builds the row slice. -/
def translateRow (r : List String) : List (Option String) :=
  r.map translateField

/-- The template helper named eq in the package function map fns:
it compares its two arguments for equality. -/
def eq {β : Type} [DecidableEq β] (x y : β) : Bool :=
  decide (x = y)

/-- Wrap-around of Go 64-bit signed integer arithmetic: values live in
the interval from -(2 ^ 63) up to 2 ^ 63 - 1 and overflow wraps. -/
def wrapInt64 (n : Int) : Int :=
  (n + 2 ^ 63) % 2 ^ 64 - 2 ^ 63

/-- The template helper named sub in the package function map fns.
Its Go body receives parameters in the order y then x and returns
x - y, i.e. it subtracts its first argument from its second, using
Go's wrap-around 64-bit integer arithmetic. -/
def sub (y x : Int) : Int :=
  wrapInt64 (x - y)

/-- Character replacement performed on the target-table name: a period
becomes an underscore, every other character is kept. -/
def dotToUnderscore (c : Char) : Char :=
  if c = '.' then '_' else c

/-- Staging-table name derivation of Upsert: replace every period in
the target-table name with an underscore and append the suffix. -/
def tempTableName (table : String) : String :=
  String.mk (table.data.map dotToUnderscore) ++ "_temp"

/-- buildQuery of upsert.go.  Template parsing and rendering happen in
the external text/template engine over files under the sql directory;
each rendering is therefore supplied as an Except value carrying either
the failure or the rendered statement text.  The revision buffer starts
out empty and is only rendered into when hasRevisions is set, so with
hasRevisions false the returned revision statement is the empty string. -/
def buildQuery (renderUpsert renderRevision : Except String String)
    (hasRevisions : Bool) : Except String (String × String) :=
  match renderUpsert with
  | Except.error e => Except.error e
  | Except.ok q =>
    if hasRevisions then
      match renderRevision with
      | Except.error e => Except.error e
      | Except.ok r => Except.ok (q, r)
    else Except.ok (q, "")

/-- Observable actions of one Upsert run, in order: the log lines the
source emits, the diagnostic print on a failed row append, and the SQL
statement executions the source issues.  The revision-affected count
printed by the source comes from the driver and is not modelled. -/
inductive Event where
  | logStartingWrite
  | copyRow (row : List (Option String))
  | printFailedRow (table : String) (row : List (Option String))
  | logProgress (n : Nat)
  | logTotal (n : Nat)
  | logCreatingIndex
  | execCreateIndex
  | logAnalyzing
  | execAnalyze
  | logCalcRevisions
  | execRevision (sql : String)
  | logRevisionCount
  | logPerformingUpsert
  | execMerge (sql : String)
  | logCommitting
  | logDone
deriving DecidableEq

/-- True exactly for an execution of the revision statement. -/
def Event.isRevisionExec : Event → Bool
  | Event.execRevision _ => true
  | _ => false

/-- True exactly for an execution of the merge statement. -/
def Event.isMergeExec : Event → Bool
  | Event.execMerge _ => true
  | _ => false

/-- True exactly for a progress log line. -/
def Event.isProgress : Event → Bool
  | Event.logProgress _ => true
  | _ => false

/-- The rows carried by the copy-append events of a trace, in order. -/
def copyRowEvents (l : List Event) : List (List (Option String)) :=
  l.filterMap (fun e =>
    match e with
    | Event.copyRow r => some r
    | _ => none)

/-- Outcomes of the external collaborators at each call site of Upsert:
none means the call succeeds, some e means it fails with error e.  The
two render fields are the template engine's results used by buildQuery.
rowErr gives the outcome of the copy append for the row at each stream
position.  analyzeErr is the outcome of the ANALYZE statement; the
source discards that error value without inspecting it.  The unique
index creation site is not listed here: it fails semantically on
duplicate staged identifiers and through indexErr otherwise. -/
structure Oracle where
  renderUpsert : Except String String
  renderRevision : Except String String
  begin1 : Option String
  createTemp : Option String
  prepareCopy : Option String
  rowErr : Nat → Option String
  flush : Option String
  closeStmt : Option String
  commit1 : Option String
  indexErr : Option String
  analyzeErr : Option String
  begin2 : Option String
  revisionErr : Option String
  mergeErr : Option String
  commit2 : Option String

/-- Result of the row-copy loop: the error that aborted it (if any),
the rows appended to the copy operation, the events emitted, and the
final value of the processed-row counter. -/
structure LoopOut where
  err : Option String
  staged : List (List (Option String))
  events : List Event
  count : Nat
deriving DecidableEq

/-- The row loop of Upsert: for each raw row, translate empty fields to
NULL, append the row to the copy operation (which may fail, aborting
with a diagnostic print of the table name and translated row), advance
the processed-row counter, and log progress whenever the counter
reaches a multiple of 100000 (the counter is incremented first, so the
logged values are positive). -/
def copyLoop (rowErr : Nat → Option String) (table : String) :
    List (List String) → Nat → List (List (Option String)) → LoopOut
  | [], n, staged => ⟨none, staged, [], n⟩
  | raw :: rest, n, staged =>
    match rowErr n with
    | some e => ⟨some e, staged, [Event.printFailedRow table (translateRow raw)], n⟩
    | none =>
      let out := copyLoop rowErr table rest (n + 1) (staged ++ [translateRow raw])
      ⟨out.err, out.staged,
        Event.copyRow (translateRow raw) ::
          ((if (n + 1) % 100000 = 0 then [Event.logProgress (n + 1)] else []) ++ out.events),
        out.count⟩

/-- Result of the staging-load phase (first transaction of Upsert). -/
structure LoadOut where
  err : Option String
  staged : List (List (Option String))
  events : List Event
  count : Nat
deriving DecidableEq

/-- The staging-load phase of Upsert: begin the first transaction,
create the staging table, prepare the copy statement, run the row loop,
flush and close the copy statement, and commit.  On any failure the
function returns that error at once; nothing of the load is then
committed. -/
def loadPhase (o : Oracle) (table : String) (rows : List (List String)) : LoadOut :=
  match o.begin1 with
  | some e => ⟨some e, [], [], 0⟩
  | none =>
  match o.createTemp with
  | some e => ⟨some e, [], [], 0⟩
  | none =>
  match o.prepareCopy with
  | some e => ⟨some e, [], [], 0⟩
  | none =>
  match copyLoop o.rowErr table rows 0 [] with
  | ⟨some e, staged, evs, n⟩ => ⟨some e, staged, evs, n⟩
  | ⟨none, staged, evs, n⟩ =>
    match o.flush with
    | some e => ⟨some e, staged, evs, n⟩
    | none =>
    match o.closeStmt with
    | some e => ⟨some e, staged, evs, n⟩
    | none =>
    match o.commit1 with
    | some e => ⟨some e, staged, evs, n⟩
    | none => ⟨none, staged, evs, n⟩

/-- Result of the merge phase (second transaction of Upsert): the error
(if any), the durable target-table value after the phase, and the
events emitted by the phase. -/
structure MergeOut (α : Type) where
  err : Option String
  target : α
  events : List Event

/-- The merge phase of Upsert: begin the second transaction; when the
revision statement is non-empty, execute it first; then execute the
merge statement; then commit.  Effects on the target table become
durable only at the commit, and any failure returns at once with the
transaction uncommitted, so a failed phase leaves the target exactly as
it was. -/
def mergePhase {α : Type} (o : Oracle) (revEff mrgEff : α → α) (t0 : α)
    (query revisionQuery : String) : MergeOut α :=
  match o.begin2 with
  | some e => ⟨some e, t0, []⟩
  | none =>
    if revisionQuery = "" then
      match o.mergeErr with
      | some e => ⟨some e, t0, [Event.logPerformingUpsert, Event.execMerge query]⟩
      | none =>
        match o.commit2 with
        | some e =>
          ⟨some e, t0,
            [Event.logPerformingUpsert, Event.execMerge query, Event.logCommitting]⟩
        | none =>
          ⟨none, mrgEff t0,
            [Event.logPerformingUpsert, Event.execMerge query, Event.logCommitting,
             Event.logDone]⟩
    else
      match o.revisionErr with
      | some e => ⟨some e, t0, [Event.logCalcRevisions, Event.execRevision revisionQuery]⟩
      | none =>
        match o.mergeErr with
        | some e =>
          ⟨some e, t0,
            [Event.logCalcRevisions, Event.execRevision revisionQuery,
             Event.logRevisionCount, Event.logPerformingUpsert, Event.execMerge query]⟩
        | none =>
          match o.commit2 with
          | some e =>
            ⟨some e, t0,
              [Event.logCalcRevisions, Event.execRevision revisionQuery,
               Event.logRevisionCount, Event.logPerformingUpsert, Event.execMerge query,
               Event.logCommitting]⟩
          | none =>
            ⟨none, mrgEff (revEff t0),
              [Event.logCalcRevisions, Event.execRevision revisionQuery,
               Event.logRevisionCount, Event.logPerformingUpsert, Event.execMerge query,
               Event.logCommitting, Event.logDone]⟩

/-- The identifier value of each staged row: the field at the position
of the identifier column within the ordered column list, which is the
column the unique staging index is built on. -/
def stagedIds (columns : List String) (idColumn : String)
    (staged : List (List (Option String))) : List (Option (Option String)) :=
  staged.map (fun r => r.get? (columns.indexOf idColumn))

/-- The error with which the database rejects creating a unique index
over staged rows whose identifier values contain a duplicate. -/
def duplicateKeyError : String :=
  "duplicate key value violates unique constraint"

/-- Events emitted between a successful staging load and the merge
phase: the total-count log line, the index log line and the index
statement execution. -/
def preIndexEvents (evs : List Event) (n : Nat) : List Event :=
  Event.logStartingWrite :: evs ++
    [Event.logTotal n, Event.logCreatingIndex, Event.execCreateIndex]

/-- Final outcome of an Upsert run: the returned error (none on
success), the durable target-table value, the committed staging-table
content (none when the staging transaction never committed), the full
event trace, and the final processed-row counter. -/
structure Outcome (α : Type) where
  result : Option String
  target : α
  stagingCommitted : Option (List (List (Option String)))
  events : List Event
  rowsProcessed : Nat

/-- Upsert of upsert.go over the oracle model.  Control flow follows
the source exactly: buildQuery; the staging-load transaction; the
unique-index creation on the staging identifier column (failing with
duplicateKeyError whenever the staged identifier values are not
pairwise distinct); the ANALYZE statement, whose error value the
source overwrites without checking; then the merge phase.  The
revision and merge effects on the abstract target-table value are
parameters, applied to the staged rows, and become durable only when
the merge transaction commits. -/
def Upsert {α : Type} (o : Oracle)
    (revisionEffect mergeEffect : List (List (Option String)) → α → α)
    (target0 : α) (table idColumn : String) (columns : List String)
    (rows : List (List String)) (hasRevisions : Bool) : Outcome α :=
  match buildQuery o.renderUpsert o.renderRevision hasRevisions with
  | Except.error e => ⟨some e, target0, none, [], 0⟩
  | Except.ok (query, revisionQuery) =>
    match loadPhase o table rows with
    | ⟨some e, _, evs, n⟩ =>
      ⟨some e, target0, none, Event.logStartingWrite :: evs, n⟩
    | ⟨none, staged, evs, n⟩ =>
      if (stagedIds columns idColumn staged).Nodup then
        match o.indexErr with
        | some e => ⟨some e, target0, some staged, preIndexEvents evs n, n⟩
        | none =>
          match mergePhase o (revisionEffect staged) (mergeEffect staged)
              target0 query revisionQuery with
          | ⟨merr, t', mevs⟩ =>
            ⟨merr, t', some staged,
              preIndexEvents evs n ++ [Event.logAnalyzing, Event.execAnalyze] ++ mevs, n⟩
      else
        ⟨some duplicateKeyError, target0, some staged, preIndexEvents evs n, n⟩

/-- The oracle of a run in which every external call succeeds and the
two templates render to the given statement texts. -/
def okOracle (q r : String) : Oracle :=
  ⟨Except.ok q, Except.ok r, none, none, none, fun _ => none,
   none, none, none, none, none, none, none, none, none⟩

/-- Replace only the ANALYZE outcome of an oracle. -/
def setAnalyzeErr (o : Oracle) (x : Option String) : Oracle :=
  ⟨o.renderUpsert, o.renderRevision, o.begin1, o.createTemp, o.prepareCopy,
   o.rowErr, o.flush, o.closeStmt, o.commit1, o.indexErr, x, o.begin2,
   o.revisionErr, o.mergeErr, o.commit2⟩

/-- C1: for every row consumed by Upsert and every field position, the
value appended to the staging copy operation at that position is SQL
NULL (none) if and only if the field string there is the empty string,
and every non-empty string (including strings such as "null") is passed
through as the literal string value unchanged. -/
theorem null_translation_iff (r : List String) (i : Nat) :
    ((translateRow r)[i]? = some none ↔ r[i]? = some "") ∧
    (∀ s : String, r[i]? = some s → s ≠ "" → (translateRow r)[i]? = some (some s)) := by
  refine ⟨?_, ?_⟩
  · cases h : r[i]? with
    | none => simp [translateRow, List.getElem?_map, h]
    | some s =>
      by_cases hs : s = "" <;>
        simp [translateRow, List.getElem?_map, h, translateField, hs]
  · intro s hs hne
    simp [translateRow, List.getElem?_map, hs, translateField, hne]

/-- Witness for null_translation_iff at a concrete row: the string
"null" is stored literally, not as SQL NULL. -/
theorem null_translation_iff_witness :
    (["", "null", "x"][1]? = some "null" ∧ "null" ≠ "") ∧
    (translateRow ["", "null", "x"])[1]? = some (some "null") :=
  ⟨⟨rfl, by decide⟩,
   (null_translation_iff ["", "null", "x"] 1).2 "null" rfl (by decide)⟩

/-- C10 counterexample: read over the mathematical integers, sub does
not always return its second argument minus its first, because Go's
64-bit integer subtraction wraps on overflow: at a = -(2 ^ 63) and
b = 1 the Go helper returns 1 - 2 ^ 63, not 1 + 2 ^ 63. -/
theorem sub_overflow_counterexample :
    sub (-(2 ^ 63)) 1 ≠ 1 - (-(2 ^ 63)) := by decide

/-- C10 amended: sub subtracts its first argument from its second in
Go's wrap-around 64-bit arithmetic — in particular it equals the exact
difference whenever that difference fits in the 64-bit signed range —
and eq returns true exactly when its two arguments are equal.  Both
helpers are plain functions of their arguments (pure, deterministic). -/
theorem sub_and_eq_helpers :
    (∀ a b : Int, sub a b = wrapInt64 (b - a)) ∧
    (∀ a b : Int, -(2 ^ 63) ≤ b - a → b - a < 2 ^ 63 → sub a b = b - a) ∧
    (∀ (β : Type) (inst : DecidableEq β) (x y : β), @eq β inst x y = true ↔ x = y) := by
  refine ⟨fun a b => rfl, fun a b h1 h2 => ?_, fun β inst x y => ?_⟩
  · unfold sub wrapInt64
    have hpow : (2 : Int) ^ 64 = 2 ^ 63 * 2 := by rw [pow_succ]
    have h3 : (0 : Int) ≤ b - a + 2 ^ 63 := by omega
    have h4 : b - a + 2 ^ 63 < 2 ^ 64 := by omega
    rw [Int.emod_eq_of_lt h3 h4]
    omega
  · simp [Bloomdb.eq]

/-- Witness for sub_and_eq_helpers: sub 1 5 evaluates to 5 - 1. -/
theorem sub_and_eq_helpers_witness :
    (-(2 ^ 63) ≤ (5 : Int) - 1 ∧ (5 : Int) - 1 < 2 ^ 63) ∧ sub 1 5 = 5 - 1 :=
  ⟨⟨by decide, by decide⟩, sub_and_eq_helpers.2.1 1 5 (by decide) (by decide)⟩

/-- C3 counterexample: the staging-name derivation is not injective:
the two distinct target names a.b and a_b derive the same staging name. -/
theorem tempTableName_not_injective :
    tempTableName "a.b" = tempTableName "a_b" ∧ "a.b" ≠ "a_b" := by
  exact ⟨rfl, by decide⟩

/-- The per-character replacement is injective away from underscores. -/
theorem dotToUnderscore_inj (a b : Char) (ha : a ≠ '_') (hb : b ≠ '_')
    (h : dotToUnderscore a = dotToUnderscore b) : a = b := by
  unfold dotToUnderscore at h
  by_cases h1 : a = '.' <;> by_cases h2 : b = '.' <;>
    simp [h1, h2] at h <;> first
      | exact h1.trans h2.symm
      | exact absurd h.symm hb
      | exact absurd h ha
      | exact h

/-- Mapping the period replacement over a character list is injective
when neither list contains an underscore. -/
theorem mapDotToUnderscore_inj : ∀ l1 l2 : List Char, '_' ∉ l1 → '_' ∉ l2 →
    l1.map dotToUnderscore = l2.map dotToUnderscore → l1 = l2 := by
  intro l1
  induction l1 with
  | nil =>
    intro l2 _ _ h
    cases l2 with
    | nil => rfl
    | cons c t => simp at h
  | cons a t ih =>
    intro l2 h1 h2 h
    cases l2 with
    | nil => simp at h
    | cons b t2 =>
      simp only [List.map_cons, List.cons.injEq] at h
      have ha : a ≠ '_' := fun e => h1 (by simp [e])
      have hb : b ≠ '_' := fun e => h2 (by simp [e])
      have hh : a = b := dotToUnderscore_inj a b ha hb h.1
      have ht : t = t2 :=
        ih t2 (fun m => h1 (List.mem_cons_of_mem _ m))
          (fun m => h2 (List.mem_cons_of_mem _ m)) h.2
      rw [hh, ht]

/-- C3 amended: the staging-table name is a deterministic function of
the target-table name (tempTableName), but the derivation is not
injective on all names (see the counterexample); it is injective on the
target names that contain no underscore, where the replacement of
periods can be undone. -/
theorem tempTableName_inj_no_underscore (t1 t2 : String)
    (h1 : '_' ∉ t1.data) (h2 : '_' ∉ t2.data)
    (h : tempTableName t1 = tempTableName t2) : t1 = t2 := by
  unfold tempTableName at h
  have hd : t1.data.map dotToUnderscore ++ "_temp".data
      = t2.data.map dotToUnderscore ++ "_temp".data := by
    have h' := congrArg String.data h
    simpa [String.data_append] using h'
  exact String.ext (mapDotToUnderscore_inj _ _ h1 h2 (List.append_cancel_right hd))

/-- Witness for tempTableName_inj_no_underscore at underscore-free
concrete names. -/
theorem tempTableName_inj_no_underscore_witness :
    ('_' ∉ "a.b".data ∧ '_' ∉ "a.b".data ∧
      tempTableName "a.b" = tempTableName "a.b") ∧ "a.b" = "a.b" :=
  ⟨⟨by decide, by decide, rfl⟩,
   tempTableName_inj_no_underscore "a.b" "a.b" (by decide) (by decide) rfl⟩

/-- The row loop emits no statement execution of the merge phase. -/
theorem copyLoop_no_exec (rE : Nat → Option String) (tb : String) :
    ∀ (rows : List (List String)) (n : Nat) (staged : List (List (Option String)))
      (x : Event), x ∈ (copyLoop rE tb rows n staged).events →
      x.isRevisionExec = false ∧ x.isMergeExec = false := by
  intro rows
  induction rows with
  | nil =>
    intro n staged x hx
    simp [copyLoop] at hx
  | cons raw rest ih =>
    intro n staged x hx
    rcases h : rE n with _ | e
    · simp only [copyLoop, h, List.mem_cons, List.mem_append] at hx
      rcases hx with h1 | h2 | h3
      · subst h1; exact ⟨rfl, rfl⟩
      · by_cases hc : (n + 1) % 100000 = 0
        · simp [hc] at h2
          subst h2; exact ⟨rfl, rfl⟩
        · simp [hc] at h2
      · exact ih (n + 1) (staged ++ [translateRow raw]) x h3
    · simp only [copyLoop, h, List.mem_singleton] at hx
      subst hx; exact ⟨rfl, rfl⟩

/-- On an all-success row oracle the loop appends every translated row,
reports no error and advances the counter once per row. -/
theorem copyLoop_ok (rE : Nat → Option String) (tb : String)
    (hre : ∀ k, rE k = none) :
    ∀ (rows : List (List String)) (n : Nat) (staged : List (List (Option String))),
      (copyLoop rE tb rows n staged).err = none ∧
      (copyLoop rE tb rows n staged).staged = staged ++ rows.map translateRow ∧
      (copyLoop rE tb rows n staged).count = n + rows.length := by
  intro rows
  induction rows with
  | nil =>
    intro n staged
    simp [copyLoop]
  | cons raw rest ih =>
    intro n staged
    simp only [copyLoop, hre n]
    refine ⟨(ih (n + 1) (staged ++ [translateRow raw])).1, ?_, ?_⟩
    · rw [(ih (n + 1) (staged ++ [translateRow raw])).2.1]
      simp
    · rw [(ih (n + 1) (staged ++ [translateRow raw])).2.2]
      simp only [List.length_cons]
      omega

/-- On an all-success row oracle the loop logs progress exactly at the
positive multiples of 100000 that the counter passes through. -/
theorem copyLoop_progress (rE : Nat → Option String) (tb : String)
    (hre : ∀ k, rE k = none) :
    ∀ (rows : List (List String)) (n : Nat) (staged : List (List (Option String)))
      (m : Nat), Event.logProgress m ∈ (copyLoop rE tb rows n staged).events ↔
        (n < m ∧ m ≤ n + rows.length ∧ m % 100000 = 0) := by
  intro rows
  induction rows with
  | nil =>
    intro n staged m
    simp [copyLoop]
    omega
  | cons raw rest ih =>
    intro n staged m
    by_cases hc : (n + 1) % 100000 = 0 <;>
      simp [copyLoop, hre n, hc, ih (n + 1) (staged ++ [translateRow raw]) m] <;>
      omega

/-- copyRowEvents distributes over append. -/
theorem copyRowEvents_append (l1 l2 : List Event) :
    copyRowEvents (l1 ++ l2) = copyRowEvents l1 ++ copyRowEvents l2 := by
  simp [copyRowEvents, List.filterMap_append]

/-- A copy-append event contributes its row to copyRowEvents. -/
theorem copyRowEvents_copyRow_cons (r : List (Option String)) (l : List Event) :
    copyRowEvents (Event.copyRow r :: l) = r :: copyRowEvents l := rfl

/-- A progress log line contributes nothing to copyRowEvents. -/
theorem copyRowEvents_progress_cons (n : Nat) (l : List Event) :
    copyRowEvents (Event.logProgress n :: l) = copyRowEvents l := rfl

/-- When the append of the row at stream position j fails (and every
earlier append succeeds), the loop stops with that error: exactly the
first j translated rows were appended to the copy operation, the
counter stands at j more than it started, and the diagnostic print
carries the table name and the offending translated row. -/
theorem copyLoop_fail (rE : Nat → Option String) (tb : String) (e : String) :
    ∀ (rows : List (List String)) (j n : Nat) (staged : List (List (Option String)))
      (hj : j < rows.length), (∀ k, k < j → rE (n + k) = none) → rE (n + j) = some e →
      (copyLoop rE tb rows n staged).err = some e ∧
      (copyLoop rE tb rows n staged).staged = staged ++ (rows.take j).map translateRow ∧
      (copyLoop rE tb rows n staged).count = n + j ∧
      copyRowEvents (copyLoop rE tb rows n staged).events
        = (rows.take j).map translateRow ∧
      Event.printFailedRow tb (translateRow (rows.get ⟨j, hj⟩))
        ∈ (copyLoop rE tb rows n staged).events := by
  intro rows
  induction rows with
  | nil =>
    intro j n staged hj
    exact absurd hj (by simp)
  | cons raw rest ih =>
    intro j n staged hj hpre he
    cases j with
    | zero =>
      have h0 : rE n = some e := by simpa using he
      simp [copyLoop, h0, copyRowEvents]
    | succ j' =>
      have h0 : rE n = none := by simpa using hpre 0 (Nat.succ_pos j')
      have hj' : j' < rest.length := by simpa using hj
      have hpre' : ∀ k, k < j' → rE (n + 1 + k) = none := by
        intro k hk
        have := hpre (k + 1) (by omega)
        simpa [Nat.add_comm, Nat.add_assoc, Nat.add_left_comm] using this
      have he' : rE (n + 1 + j') = some e := by
        have : n + 1 + j' = n + (j' + 1) := by omega
        rw [this]; exact he
      obtain ⟨ha, hb, hcnt, hcre, hmem⟩ :=
        ih j' (n + 1) (staged ++ [translateRow raw]) hj' hpre' he'
      simp only [copyLoop, h0]
      refine ⟨ha, ?_, ?_, ?_, ?_⟩
      · rw [hb]; simp
      · rw [hcnt]; omega
      · rw [copyRowEvents_copyRow_cons, copyRowEvents_append]
        have hif : copyRowEvents
            (if (n + 1) % 100000 = 0 then [Event.logProgress (n + 1)] else []) = [] := by
          by_cases hcc : (n + 1) % 100000 = 0 <;> simp [hcc, copyRowEvents]
        rw [hif, hcre]
        simp
      · simp only [List.mem_cons, List.mem_append]
        exact Or.inr (Or.inr hmem)

/-- The staging-load phase emits no statement execution of the merge
phase in its trace either. -/
theorem loadPhase_no_exec (o : Oracle) (tb : String) (rows : List (List String)) :
    ∀ x ∈ (loadPhase o tb rows).events,
      x.isRevisionExec = false ∧ x.isMergeExec = false := by
  intro x
  unfold loadPhase
  cases o.begin1 with
  | some e => intro hx; simp at hx
  | none =>
  cases o.createTemp with
  | some e => intro hx; simp at hx
  | none =>
  cases o.prepareCopy with
  | some e => intro hx; simp at hx
  | none =>
    rcases hcl : copyLoop o.rowErr tb rows 0 [] with ⟨oe, st, ev, n⟩
    have hev : ∀ y ∈ ev, y.isRevisionExec = false ∧ y.isMergeExec = false := by
      intro y hy
      refine copyLoop_no_exec o.rowErr tb rows 0 [] y ?_
      rw [hcl]
      exact hy
    cases oe with
    | some e => intro hx; exact hev x hx
    | none =>
      cases o.flush with
      | some e => intro hx; exact hev x hx
      | none =>
      cases o.closeStmt with
      | some e => intro hx; exact hev x hx
      | none =>
      cases o.commit1 with
      | some e => intro hx; exact hev x hx
      | none => intro hx; exact hev x hx

/-- On an all-success staging oracle the load phase commits the
translated rows, counts them all, and its trace is the loop's trace. -/
theorem loadPhase_ok (o : Oracle) (tb : String) (rows : List (List String))
    (hb1 : o.begin1 = none) (hct : o.createTemp = none) (hpc : o.prepareCopy = none)
    (hre : ∀ k, o.rowErr k = none) (hfl : o.flush = none) (hcl : o.closeStmt = none)
    (hcm : o.commit1 = none) :
    loadPhase o tb rows =
      ⟨none, rows.map translateRow, (copyLoop o.rowErr tb rows 0 []).events,
        rows.length⟩ := by
  obtain ⟨he, hs, hn⟩ := copyLoop_ok o.rowErr tb hre rows 0 []
  unfold loadPhase
  rw [hb1, hct, hpc]
  rcases hcl2 : copyLoop o.rowErr tb rows 0 [] with ⟨oe, st, ev, n⟩
  rw [hcl2] at he hs hn
  simp only at he hs hn
  subst he
  rw [hfl, hcl, hcm]
  rw [hs, hn]
  simp

/-- When the copy loop aborts (and the transaction begin, staging-table
creation and copy preparation succeeded), the load phase returns the
loop's error, trace and counter, and commits nothing. -/
theorem loadPhase_fail (o : Oracle) (tb : String) (rows : List (List String))
    (e : String)
    (hb1 : o.begin1 = none) (hct : o.createTemp = none) (hpc : o.prepareCopy = none)
    (he : (copyLoop o.rowErr tb rows 0 []).err = some e) :
    (loadPhase o tb rows).err = some e ∧
    (loadPhase o tb rows).events = (copyLoop o.rowErr tb rows 0 []).events ∧
    (loadPhase o tb rows).count = (copyLoop o.rowErr tb rows 0 []).count := by
  unfold loadPhase
  rw [hb1, hct, hpc]
  rcases hcl2 : copyLoop o.rowErr tb rows 0 [] with ⟨oe, st, ev, n⟩
  rw [hcl2] at he
  simp only at he
  subst he
  exact ⟨rfl, rfl, rfl⟩

/-- Every event of the merge phase is one of its seven fixed actions. -/
theorem mergePhase_events_shape {α : Type} (o : Oracle) (re me : α → α) (t0 : α)
    (q rq : String) :
    ∀ x ∈ (mergePhase o re me t0 q rq).events,
      x = Event.logCalcRevisions ∨ x = Event.execRevision rq ∨
      x = Event.logRevisionCount ∨ x = Event.logPerformingUpsert ∨
      x = Event.execMerge q ∨ x = Event.logCommitting ∨ x = Event.logDone := by
  intro x
  unfold mergePhase
  cases o.begin2 with
  | some e => intro hx; simp at hx
  | none =>
    by_cases hrq : rq = ""
    · simp only [if_pos hrq]
      cases o.mergeErr with
      | some e => intro hx; simp at hx; tauto
      | none =>
        cases o.commit2 with
        | some e => intro hx; simp at hx; tauto
        | none => intro hx; simp at hx; tauto
    · simp only [if_neg hrq]
      cases o.revisionErr with
      | some e => intro hx; simp at hx; tauto
      | none =>
        cases o.mergeErr with
        | some e => intro hx; simp at hx; tauto
        | none =>
          cases o.commit2 with
          | some e => intro hx; simp at hx; tauto
          | none => intro hx; simp at hx; tauto

/-- When the revision statement is empty the merge phase executes no
revision statement. -/
theorem mergePhase_no_revision {α : Type} (o : Oracle) (re me : α → α) (t0 : α)
    (q : String) :
    ∀ x ∈ (mergePhase o re me t0 q "").events, x.isRevisionExec = false := by
  intro x
  unfold mergePhase
  cases o.begin2 with
  | some e => intro hx; simp at hx
  | none =>
    simp only [if_pos rfl]
    cases o.mergeErr with
    | some e => intro hx; simp at hx; rcases hx with h | h <;> subst h <;> rfl
    | none =>
      cases o.commit2 with
      | some e =>
        intro hx; simp at hx; rcases hx with h | h | h <;> subst h <;> rfl
      | none =>
        intro hx; simp at hx; rcases hx with h | h | h | h <;> subst h <;> rfl

/-- An ordered pair of a revision execution and a merge execution is a
sublist of any trace that lists them in that order. -/
theorem revision_merge_sublist (rq q : String) (l : List Event) :
    List.Sublist [Event.execRevision rq, Event.execMerge q]
      (Event.logCalcRevisions :: Event.execRevision rq :: Event.logRevisionCount ::
        Event.logPerformingUpsert :: Event.execMerge q :: l) := by
  refine List.Sublist.cons _ ?_
  refine List.Sublist.cons₂ _ ?_
  refine List.Sublist.cons _ ?_
  refine List.Sublist.cons _ ?_
  exact List.Sublist.cons₂ _ (List.nil_sublist l)

/-- When the revision statement is non-empty and the merge statement is
executed at all during the merge phase, the revision statement was
executed strictly before it: the phase trace lists the revision
execution then the merge execution, each exactly once. -/
theorem mergePhase_order {α : Type} (o : Oracle) (re me : α → α) (t0 : α)
    (q rq : String) (hrq : rq ≠ "")
    (hm : Event.execMerge q ∈ (mergePhase o re me t0 q rq).events) :
    List.Sublist [Event.execRevision rq, Event.execMerge q]
      (mergePhase o re me t0 q rq).events ∧
    (mergePhase o re me t0 q rq).events.count (Event.execMerge q) = 1 ∧
    (mergePhase o re me t0 q rq).events.count (Event.execRevision rq) = 1 := by
  unfold mergePhase at hm ⊢
  revert hm
  cases o.begin2 with
  | some e => intro hm; simp at hm
  | none =>
    simp only [if_neg hrq]
    cases o.revisionErr with
    | some e => intro hm; simp at hm
    | none =>
      intro hm
      cases o.mergeErr with
      | some e =>
        refine ⟨revision_merge_sublist rq q [], ?_, ?_⟩ <;>
          simp [List.count_cons, List.count_nil]
      | none =>
        cases o.commit2 with
        | some e =>
          refine ⟨revision_merge_sublist rq q [Event.logCommitting], ?_, ?_⟩ <;>
            simp [List.count_cons, List.count_nil]
        | none =>
          refine ⟨revision_merge_sublist rq q
            [Event.logCommitting, Event.logDone], ?_, ?_⟩ <;>
            simp [List.count_cons, List.count_nil]

/-- If the merge statement's execution fails, or the revision statement
is non-empty and its execution fails, then the merge phase fails and
its durable target value is unchanged: nothing of the transaction is
committed. -/
theorem mergePhase_stmt_failure {α : Type} (o : Oracle) (re me : α → α) (t0 : α)
    (q rq e : String)
    (h : o.mergeErr = some e ∨ (rq ≠ "" ∧ o.revisionErr = some e)) :
    (mergePhase o re me t0 q rq).err.isSome = true ∧
    (mergePhase o re me t0 q rq).target = t0 := by
  unfold mergePhase
  cases o.begin2 with
  | some x => simp
  | none =>
    by_cases hrq : rq = ""
    · rcases h with h | ⟨hne, _⟩
      · simp [hrq, h]
      · exact absurd hrq hne
    · simp only [if_neg hrq]
      cases hr : o.revisionErr with
      | some x => simp
      | none =>
        rcases h with h | ⟨_, h⟩
        · simp [h]
        · rw [hr] at h; exact absurd h (by simp)

/-- A trace without executions has countP zero for both kinds. -/
theorem countP_no_exec_zero (l : List Event)
    (h : ∀ x ∈ l, x.isRevisionExec = false ∧ x.isMergeExec = false) :
    l.countP Event.isMergeExec = 0 ∧ l.countP Event.isRevisionExec = 0 := by
  constructor <;> rw [List.countP_eq_zero] <;> intro a ha <;>
    simp [(h a ha).1, (h a ha).2]

/-- Everything the pipeline emits strictly before the merge phase —
the load trace, the total and index log lines, the index execution,
and the ANALYZE log line and execution — is neither a revision nor a
merge statement execution. -/
theorem staging_chunk_no_exec {evs : List Event} {n : Nat}
    (hevs : ∀ x ∈ evs, x.isRevisionExec = false ∧ x.isMergeExec = false) :
    ∀ x ∈ preIndexEvents evs n ++ [Event.logAnalyzing, Event.execAnalyze],
      x.isRevisionExec = false ∧ x.isMergeExec = false := by
  intro x hx
  simp only [preIndexEvents, List.cons_append, List.append_assoc, List.mem_cons,
    List.mem_append, List.mem_singleton, List.not_mem_nil, or_false] at hx
  rcases hx with h | h | h | h | h | h | h <;>
    first
      | exact hevs x h
      | (subst h; exact ⟨rfl, rfl⟩)
      | simp at h
      | (rcases h with h | h <;> subst h <;> exact ⟨rfl, rfl⟩)

/-- The pre-index chunk alone also contains no statement execution of
the merge phase. -/
theorem preIndex_no_exec {evs : List Event} {n : Nat}
    (hevs : ∀ x ∈ evs, x.isRevisionExec = false ∧ x.isMergeExec = false) :
    ∀ x ∈ preIndexEvents evs n, x.isRevisionExec = false ∧ x.isMergeExec = false := by
  intro x hx
  exact staging_chunk_no_exec hevs x (List.mem_append.mpr (Or.inl hx))

/-- C2: a row stream whose records do not have pairwise-distinct
identifier values makes the pipeline fail with the uniqueness-index
creation error; the error is returned before any revision or merge
statement is executed (the trace contains no such execution), and the
durable target table is exactly the initial one. -/
theorem duplicate_ids_abort_before_merge {α : Type} (o : Oracle)
    (re me : List (List (Option String)) → α → α) (t0 : α)
    (tb idc : String) (cols : List String) (rows : List (List String))
    (hasRev : Bool) (q r : String)
    (hbuild : buildQuery o.renderUpsert o.renderRevision hasRev = Except.ok (q, r))
    (hb1 : o.begin1 = none) (hct : o.createTemp = none) (hpc : o.prepareCopy = none)
    (hre : ∀ k, o.rowErr k = none) (hfl : o.flush = none) (hcl : o.closeStmt = none)
    (hcm : o.commit1 = none)
    (hdup : ¬ (stagedIds cols idc (rows.map translateRow)).Nodup) :
    (Upsert o re me t0 tb idc cols rows hasRev).result = some duplicateKeyError ∧
    (Upsert o re me t0 tb idc cols rows hasRev).target = t0 ∧
    (Upsert o re me t0 tb idc cols rows hasRev).events.countP Event.isMergeExec = 0 ∧
    (Upsert o re me t0 tb idc cols rows hasRev).events.countP Event.isRevisionExec
      = 0 := by
  have hlp := loadPhase_ok o tb rows hb1 hct hpc hre hfl hcl hcm
  have hz := countP_no_exec_zero (copyLoop o.rowErr tb rows 0 []).events
    (fun x hx => copyLoop_no_exec o.rowErr tb rows 0 [] x hx)
  unfold Upsert
  simp only [hbuild, hlp]
  rw [if_neg hdup]
  refine ⟨rfl, rfl, ?_, ?_⟩ <;>
    simp [preIndexEvents, List.countP_cons, List.countP_append, hz.1, hz.2,
      Event.isMergeExec, Event.isRevisionExec]

/-- Witness for duplicate_ids_abort_before_merge: two records sharing
the identifier value "1". -/
theorem duplicate_ids_abort_witness :
    (¬ (stagedIds ["id"] "id" ([["1"], ["1"]].map translateRow)).Nodup) ∧
    (Upsert (okOracle "M" "R") (fun _ t => t) (fun _ t => t) (0 : Nat) "users" "id"
      ["id"] [["1"], ["1"]] true).result = some duplicateKeyError :=
  ⟨by decide, (duplicate_ids_abort_before_merge (okOracle "M" "R") (fun _ t => t)
    (fun _ t => t) 0 "users" "id" ["id"] [["1"], ["1"]] true "M" "R" rfl rfl rfl rfl
    (fun _ => rfl) rfl rfl rfl (by decide)).1⟩

/-- C4: with revision tracking disabled, buildQuery returns the empty
string as the revision statement, and a full Upsert run with revision
tracking disabled never executes a revision statement: its trace
contains no revision execution at all. -/
theorem no_revision_when_disabled :
    (∀ (u : String) (rr : Except String String),
      buildQuery (Except.ok u) rr false = Except.ok (u, "")) ∧
    (∀ (α : Type) (o : Oracle) (re me : List (List (Option String)) → α → α)
      (t0 : α) (tb idc : String) (cols : List String) (rows : List (List String)),
      (Upsert o re me t0 tb idc cols rows false).events.countP
        Event.isRevisionExec = 0) := by
  constructor
  · intro u rr; rfl
  · intro α o re me t0 tb idc cols rows
    rw [List.countP_eq_zero]
    intro a ha
    revert ha
    unfold Upsert
    cases hru : o.renderUpsert with
    | error e => intro ha; simp [buildQuery, hru] at ha
    | ok u =>
      have hbq : buildQuery (Except.ok u) o.renderRevision false
          = Except.ok (u, "") := rfl
      simp only [hbq]
      rcases hlp : loadPhase o tb rows with ⟨oerr, staged, evs, n⟩
      have hevs : ∀ x ∈ evs, x.isRevisionExec = false ∧ x.isMergeExec = false := by
        intro x hx
        refine loadPhase_no_exec o tb rows x ?_
        rw [hlp]; exact hx
      cases oerr with
      | some e =>
        intro ha
        simp only [List.mem_cons] at ha
        rcases ha with h | h
        · subst h; decide
        · simp [(hevs a h).1]
      | none =>
        by_cases hnd : (stagedIds cols idc staged).Nodup
        · simp only [hnd, if_true]
          cases hie : o.indexErr with
          | some e =>
            intro ha
            simp [(preIndex_no_exec hevs a ha).1]
          | none =>
            rcases hmp : mergePhase o (re staged) (me staged) t0 u ""
              with ⟨merr, t', mevs⟩
            have hmevs : ∀ x ∈ mevs, x.isRevisionExec = false := by
              intro x hx
              refine mergePhase_no_revision o (re staged) (me staged) t0 u x ?_
              rw [hmp]; exact hx
            intro ha
            rcases List.mem_append.mp ha with h | h
            · have := staging_chunk_no_exec hevs a h
              simp [this.1]
            · simp [hmevs a h]
        · simp only [hnd, if_false]
          intro ha
          simp [(preIndex_no_exec hevs a ha).1]

/-- C6: the merge transaction is atomic: if the execution of the merge
statement fails, or the revision statement is non-empty and its
execution fails, the run returns an error and the durable target table
is exactly the initial one — no revision advance is recorded without
the upsert being applied, and no upsert without the revision update. -/
theorem merge_transaction_atomic {α : Type} (o : Oracle)
    (re me : List (List (Option String)) → α → α) (t0 : α)
    (tb idc : String) (cols : List String) (rows : List (List String))
    (hasRev : Bool) (q r e : String)
    (hbuild : buildQuery o.renderUpsert o.renderRevision hasRev = Except.ok (q, r))
    (hfail : o.mergeErr = some e ∨ (r ≠ "" ∧ o.revisionErr = some e)) :
    (Upsert o re me t0 tb idc cols rows hasRev).result.isSome = true ∧
    (Upsert o re me t0 tb idc cols rows hasRev).target = t0 := by
  unfold Upsert
  simp only [hbuild]
  rcases hlp : loadPhase o tb rows with ⟨oerr, staged, evs, n⟩
  cases oerr with
  | some e2 => exact ⟨rfl, rfl⟩
  | none =>
    by_cases hnd : (stagedIds cols idc staged).Nodup
    · simp only [hnd, if_true]
      cases hie : o.indexErr with
      | some e2 => exact ⟨rfl, rfl⟩
      | none =>
        rcases hmp : mergePhase o (re staged) (me staged) t0 q r
          with ⟨merr, t', mevs⟩
        have h2 := mergePhase_stmt_failure o (re staged) (me staged) t0 q r e hfail
        rw [hmp] at h2
        exact ⟨h2.1, h2.2⟩
    · simp [hnd]

/-- An all-success oracle except that executing the merge statement
fails. -/
def mergeFailOracle : Oracle :=
  ⟨Except.ok "M", Except.ok "R", none, none, none, fun _ => none,
   none, none, none, none, none, none, none, some "merge failed", none⟩

/-- Witness for merge_transaction_atomic: with a failing merge
statement the run errors and the target value 0 is untouched. -/
theorem merge_transaction_atomic_witness :
    (Upsert mergeFailOracle (fun _ t => t) (fun _ t => t + 1) (0 : Nat) "t" "id"
      ["id"] [["1"]] true).result.isSome = true ∧
    (Upsert mergeFailOracle (fun _ t => t) (fun _ t => t + 1) (0 : Nat) "t" "id"
      ["id"] [["1"]] true).target = 0 :=
  merge_transaction_atomic mergeFailOracle (fun _ t => t) (fun _ t => t + 1) 0 "t"
    "id" ["id"] [["1"]] true "M" "R" "merge failed" rfl (Or.inl rfl)

/-- C5: whenever the revision statement returned by buildQuery is
non-empty and the merge statement is executed during the run, the
revision statement was executed strictly before it: the trace lists
the revision execution and then the merge execution, each occurring
exactly once, so the merge statement is never executed before the
revision statement. -/
theorem revision_executes_before_merge {α : Type} (o : Oracle)
    (re me : List (List (Option String)) → α → α) (t0 : α)
    (tb idc : String) (cols : List String) (rows : List (List String))
    (hasRev : Bool) (q r : String)
    (hbuild : buildQuery o.renderUpsert o.renderRevision hasRev = Except.ok (q, r))
    (hr : r ≠ "")
    (hmem : Event.execMerge q ∈ (Upsert o re me t0 tb idc cols rows hasRev).events) :
    List.Sublist [Event.execRevision r, Event.execMerge q]
      (Upsert o re me t0 tb idc cols rows hasRev).events ∧
    (Upsert o re me t0 tb idc cols rows hasRev).events.count (Event.execMerge q)
      = 1 ∧
    (Upsert o re me t0 tb idc cols rows hasRev).events.count (Event.execRevision r)
      = 1 := by
  unfold Upsert at hmem ⊢
  rw [hbuild] at hmem ⊢
  rcases hlp : loadPhase o tb rows with ⟨oerr, staged, evs, n⟩
  rw [hlp] at hmem
  have hevs : ∀ x ∈ evs, x.isRevisionExec = false ∧ x.isMergeExec = false := by
    intro x hx
    refine loadPhase_no_exec o tb rows x ?_
    rw [hlp]; exact hx
  have hnm : Event.execMerge q ∉ evs := fun hx => by
    have := (hevs _ hx).2
    simp [Event.isMergeExec] at this
  cases oerr with
  | some e =>
    exfalso
    simp only [List.mem_cons] at hmem
    rcases hmem with h | h
    · exact absurd h (by simp)
    · exact hnm h
  | none =>
    by_cases hnd : (stagedIds cols idc staged).Nodup
    · simp only [hnd, if_true] at hmem ⊢
      cases hie : o.indexErr with
      | some e =>
        exfalso
        rw [hie] at hmem
        simp only [] at hmem
        exact absurd ((preIndex_no_exec hevs _ hmem).2) (by simp [Event.isMergeExec])
      | none =>
        rw [hie] at hmem
        simp only [] at hmem ⊢
        have hchunk : ∀ x ∈ preIndexEvents evs n ++ [Event.logAnalyzing,
            Event.execAnalyze], x.isRevisionExec = false ∧ x.isMergeExec = false :=
          @staging_chunk_no_exec evs n hevs
        have hmm : Event.execMerge q
            ∈ (mergePhase o (re staged) (me staged) t0 q r).events := by
          rcases List.mem_append.mp hmem with h | h
          · exact absurd ((hchunk _ h).2) (by simp [Event.isMergeExec])
          · exact h
        have horder := mergePhase_order o (re staged) (me staged) t0 q r hr hmm
        have hnc1 : (preIndexEvents evs n
            ++ [Event.logAnalyzing, Event.execAnalyze]).count (Event.execMerge q)
            = 0 := by
          rw [List.count_eq_zero]
          intro hx
          exact absurd ((hchunk _ hx).2) (by simp [Event.isMergeExec])
        have hnc2 : (preIndexEvents evs n
            ++ [Event.logAnalyzing, Event.execAnalyze]).count (Event.execRevision r)
            = 0 := by
          rw [List.count_eq_zero]
          intro hx
          exact absurd ((hchunk _ hx).1) (by simp [Event.isRevisionExec])
        refine ⟨horder.1.trans (List.sublist_append_right _ _), ?_, ?_⟩
        · rw [List.count_append, hnc1, horder.2.1]
        · rw [List.count_append, hnc2, horder.2.2]
    · exfalso
      simp only [hnd, if_false] at hmem
      exact absurd ((preIndex_no_exec hevs _ hmem).2) (by simp [Event.isMergeExec])

/-- Witness for revision_executes_before_merge on a fully successful
run with revision tracking enabled. -/
theorem revision_executes_before_merge_witness :
    ("R" : String) ≠ "" ∧
    List.Sublist [Event.execRevision "R", Event.execMerge "M"]
      (Upsert (okOracle "M" "R") (fun _ t => t) (fun _ t => t) (0 : Nat) "t" "id"
        ["id"] [["1"]] true).events :=
  ⟨by decide,
   (revision_executes_before_merge (okOracle "M" "R") (fun _ t => t) (fun _ t => t)
     0 "t" "id" ["id"] [["1"]] true "M" "R" rfl (by decide) (by decide)).1⟩

/-- C7 amended: when the append of the row at stream position j fails
(all earlier appends having succeeded), Upsert returns the underlying
append error unchanged, the staging phase aborts at once — exactly the
first j translated rows were ever appended, the processed-row counter
stands at j — nothing of the staging load is committed, the durable
target is untouched, and the offending row's translated positional
values together with the target-table name are printed to the
diagnostic output (not attached to the returned error value). -/
theorem row_append_failure_aborts {α : Type} (o : Oracle)
    (re me : List (List (Option String)) → α → α) (t0 : α)
    (tb idc : String) (cols : List String) (rows : List (List String))
    (hasRev : Bool) (q r e : String) (j : Nat)
    (hbuild : buildQuery o.renderUpsert o.renderRevision hasRev = Except.ok (q, r))
    (hb1 : o.begin1 = none) (hct : o.createTemp = none) (hpc : o.prepareCopy = none)
    (hj : j < rows.length)
    (hpre : ∀ k, k < j → o.rowErr k = none)
    (he : o.rowErr j = some e) :
    (Upsert o re me t0 tb idc cols rows hasRev).result = some e ∧
    (Upsert o re me t0 tb idc cols rows hasRev).target = t0 ∧
    (Upsert o re me t0 tb idc cols rows hasRev).stagingCommitted = none ∧
    (Upsert o re me t0 tb idc cols rows hasRev).rowsProcessed = j ∧
    Event.printFailedRow tb (translateRow (rows.get ⟨j, hj⟩))
      ∈ (Upsert o re me t0 tb idc cols rows hasRev).events ∧
    copyRowEvents (Upsert o re me t0 tb idc cols rows hasRev).events
      = (rows.take j).map translateRow := by
  have hpre0 : ∀ k, k < j → o.rowErr (0 + k) = none := by
    intro k hk; simpa using hpre k hk
  have he0 : o.rowErr (0 + j) = some e := by simpa using he
  obtain ⟨hE, hS, hC, hCRE, hM⟩ :=
    copyLoop_fail o.rowErr tb e rows j 0 [] hj hpre0 he0
  have hlf := loadPhase_fail o tb rows e hb1 hct hpc hE
  unfold Upsert
  simp only [hbuild]
  rcases hlp : loadPhase o tb rows with ⟨oerr, staged, evs, n⟩
  rw [hlp] at hlf
  simp only at hlf
  obtain ⟨hoe, hev, hcn⟩ := hlf
  subst hoe
  refine ⟨rfl, rfl, rfl, ?_, ?_, ?_⟩
  · rw [hcn, hC]
    simp
  · simp only [List.mem_cons]
    exact Or.inr (by rw [hev]; exact hM)
  · have hskip : copyRowEvents (Event.logStartingWrite :: evs) = copyRowEvents evs :=
      rfl
    rw [hskip, hev, hCRE]

/-- An oracle whose copy appends always fail with the bare driver
error "boom"; everything else succeeds. -/
def failRowOracle : Oracle :=
  ⟨Except.ok "M", Except.ok "", none, none, none, fun _ => some "boom",
   none, none, none, none, none, none, none, none, none⟩

/-- C7 counterexample: the error value Upsert returns on a row-append
failure is the underlying driver error unchanged — two runs against
different target tables with different offending rows return the
identical error value, so the returned error value carries neither the
row's positional values nor the target-table name. -/
theorem load_error_lacks_context :
    (Upsert failRowOracle (fun _ t => t) (fun _ t => t) (0 : Nat) "users" "id"
      ["id"] [["7"]] false).result = some "boom" ∧
    (Upsert failRowOracle (fun _ t => t) (fun _ t => t) (0 : Nat) "customers" "id"
      ["id", "name"] [["8", "x"], ["9", "y"]] false).result = some "boom" ∧
    ("users" : String) ≠ "customers" :=
  ⟨rfl, rfl, by decide⟩

/-- Witness for row_append_failure_aborts: the failing row's translated
values and the table name appear in the diagnostic print. -/
theorem row_append_failure_witness :
    (Upsert failRowOracle (fun _ t => t) (fun _ t => t) (0 : Nat) "users" "id"
      ["id"] [["7"]] false).result = some "boom" ∧
    Event.printFailedRow "users" (translateRow ["7"])
      ∈ (Upsert failRowOracle (fun _ t => t) (fun _ t => t) (0 : Nat) "users" "id"
        ["id"] [["7"]] false).events :=
  ⟨(row_append_failure_aborts failRowOracle (fun _ t => t) (fun _ t => t) 0 "users"
      "id" ["id"] [["7"]] false "M" "" "boom" 0 rfl rfl rfl rfl (by decide)
      (fun k hk => absurd hk (Nat.not_lt_zero k)) rfl).1,
   (row_append_failure_aborts failRowOracle (fun _ t => t) (fun _ t => t) 0 "users"
      "id" ["id"] [["7"]] false "M" "" "boom" 0 rfl rfl rfl rfl (by decide)
      (fun k hk => absurd hk (Nat.not_lt_zero k)) rfl).2.2.2.2.1⟩

/-- C8 counterexample: a failing statistics refresh is not logged: the
run in which ANALYZE fails emits exactly the same trace as the run in
which it succeeds (so no log line reflects the failure), and the
failing run still completes successfully. -/
theorem analyze_failure_not_logged :
    (Upsert (setAnalyzeErr (okOracle "M" "R") (some "analyze failed"))
      (fun _ t => t) (fun _ t => t + 1) (0 : Nat) "users" "id" ["id"]
      [["1"]] true).events
      = (Upsert (okOracle "M" "R") (fun _ t => t) (fun _ t => t + 1) (0 : Nat)
      "users" "id" ["id"] [["1"]] true).events ∧
    (Upsert (setAnalyzeErr (okOracle "M" "R") (some "analyze failed"))
      (fun _ t => t) (fun _ t => t + 1) (0 : Nat) "users" "id" ["id"]
      [["1"]] true).result = none :=
  ⟨rfl, by decide⟩

/-- C8 amended: the outcome of the ANALYZE statement is discarded
entirely — the source overwrites the error variable without checking
or logging it — so a statistics-refresh failure is silently ignored:
it changes nothing about the run (same result, same trace, same
state), the pipeline proceeds to the merge phase, can complete
successfully, and the statistics-refresh error is never returned. -/
theorem analyze_failure_ignored :
    (∀ (α : Type) (o : Oracle) (x : Option String)
      (re me : List (List (Option String)) → α → α) (t0 : α) (tb idc : String)
      (cols : List String) (rows : List (List String)) (hasRev : Bool),
      Upsert (setAnalyzeErr o x) re me t0 tb idc cols rows hasRev
        = Upsert o re me t0 tb idc cols rows hasRev) ∧
    (Upsert (setAnalyzeErr (okOracle "M" "R") (some "analyze failed"))
      (fun _ t => t) (fun _ t => t + 1) (0 : Nat) "users" "id" ["id"]
      [["1"]] true).result = none :=
  ⟨fun α o x re me t0 tb idc cols rows hasRev => rfl, by decide⟩

/-- The merge phase never emits a progress log line. -/
theorem mergePhase_no_progress {α : Type} (o : Oracle) (re me : α → α) (t0 : α)
    (q rq : String) (m : Nat) :
    Event.logProgress m ∉ (mergePhase o re me t0 q rq).events := by
  intro hx
  rcases mergePhase_events_shape o re me t0 q rq _ hx with h | h | h | h | h | h | h <;>
    simp at h

/-- On a staging oracle whose calls all succeed, the processed-row
counter of the full run equals the stream length, and the trace
contains the progress line for m exactly when m is a positive multiple
of 100000 that the counter reached. -/
theorem upsert_ok_counter_progress {α : Type} (o : Oracle)
    (re me : List (List (Option String)) → α → α) (t0 : α)
    (tb idc : String) (cols : List String) (rows : List (List String))
    (hasRev : Bool) (q r : String)
    (hbuild : buildQuery o.renderUpsert o.renderRevision hasRev = Except.ok (q, r))
    (hb1 : o.begin1 = none) (hct : o.createTemp = none) (hpc : o.prepareCopy = none)
    (hre : ∀ k, o.rowErr k = none) (hfl : o.flush = none) (hcl : o.closeStmt = none)
    (hcm : o.commit1 = none) :
    (Upsert o re me t0 tb idc cols rows hasRev).rowsProcessed = rows.length ∧
    (∀ m, Event.logProgress m ∈ (Upsert o re me t0 tb idc cols rows hasRev).events
      ↔ (0 < m ∧ m % 100000 = 0 ∧ m ≤ rows.length)) := by
  have hlp := loadPhase_ok o tb rows hb1 hct hpc hre hfl hcl hcm
  have hcp := copyLoop_progress o.rowErr tb hre rows 0 []
  unfold Upsert
  simp only [hbuild, hlp]
  by_cases hnd : (stagedIds cols idc (rows.map translateRow)).Nodup
  · simp only [hnd, if_true]
    cases hie : o.indexErr with
    | some e =>
      refine ⟨rfl, ?_⟩
      intro m
      simp [preIndexEvents, hcp m]
      omega
    | none =>
      refine ⟨rfl, ?_⟩
      intro m
      simp [preIndexEvents, hcp m,
        mergePhase_no_progress o (re (rows.map translateRow))
          (me (rows.map translateRow)) t0 q r m]
      omega
  · simp only [hnd, if_false]
    refine ⟨by trivial, ?_⟩
    intro m
    simp [preIndexEvents, hcp m]
    omega

/-- C9: on a run in which every database call succeeds, the
processed-row counter starts at 0 and advances by exactly one per
appended row, ending equal to the number of rows consumed; a progress
line for the value m is surfaced exactly when m is a positive multiple
of 100000 that the counter reached (the signal is an observation in
the trace only — the outcome fields carry no dependence on it); and an
empty row stream yields a successful run with zero rows processed. -/
theorem row_counter_and_progress {α : Type} (q r : String)
    (re me : List (List (Option String)) → α → α) (t0 : α)
    (tb idc : String) (cols : List String) (rows : List (List String))
    (hasRev : Bool) :
    (Upsert (okOracle q r) re me t0 tb idc cols rows hasRev).rowsProcessed
      = rows.length ∧
    (∀ m, Event.logProgress m
        ∈ (Upsert (okOracle q r) re me t0 tb idc cols rows hasRev).events
      ↔ (0 < m ∧ m % 100000 = 0 ∧ m ≤ rows.length)) ∧
    (Upsert (okOracle q r) re me t0 tb idc cols [] hasRev).result = none ∧
    (Upsert (okOracle q r) re me t0 tb idc cols [] hasRev).rowsProcessed = 0 := by
  have hb : buildQuery (Except.ok q) (Except.ok r) hasRev
      = Except.ok (q, if hasRev then r else "") := by
    cases hasRev <;> rfl
  have h12 := upsert_ok_counter_progress (okOracle q r) re me t0 tb idc cols rows
    hasRev q (if hasRev then r else "") hb rfl rfl rfl (fun _ => rfl) rfl rfl rfl
  refine ⟨h12.1, h12.2, ?_, ?_⟩
  · cases hasRev <;> by_cases hr : r = "" <;>
      simp [Upsert, buildQuery, loadPhase, copyLoop, mergePhase, okOracle,
        stagedIds, preIndexEvents, hr]
  · cases hasRev <;> by_cases hr : r = "" <;>
      simp [Upsert, buildQuery, loadPhase, copyLoop, mergePhase, okOracle,
        stagedIds, preIndexEvents, hr]

/-- Witness for row_counter_and_progress at a concrete two-row run. -/
theorem row_counter_and_progress_witness :
    (Upsert (okOracle "M" "R") (fun _ t => t) (fun _ t => t + 1) (0 : Nat) "t" "id"
      ["id"] [["1"], ["2"]] true).rowsProcessed = 2 :=
  (row_counter_and_progress "M" "R" (fun _ t => t) (fun _ t => t + 1) 0 "t" "id"
    ["id"] [["1"], ["2"]] true).1

end Bloomdb
